import Mathlib

/-!
Shallow embedding of `src/main.go` (check-conn-script): a one-shot,
bounded-concurrency fan-out/aggregate engine that discovers Kubernetes pods,
fetches a cached EKS token, probes each pod for its TCP connection count,
and sums the successful counts.

External effects (running `kubectl` / `aws` / HTTP) are modelled as oracle
inputs of type `Except String α`: the value the external call would have
produced, or the error it would have failed with.  All functions below are
pure translations of the corresponding Go functions.
-/

/-! ## Configuration constants (src/main.go lines 19-32) -/

/-- Go constant `namespace = "fpms"` (the word `namespace` is reserved in Lean). -/
def k8sNamespace : String := "fpms"

/-- Go constant `targetPort = "9280"`. -/
def targetPort : String := "9280"

/-- Go constant `maxConcurrentConnections = 100`: capacity of the `workers` channel. -/
def maxConcurrentConnections : Nat := 100

/-- Go constant `clusterName = "fpms-prod"`. -/
def clusterName : String := "fpms-prod"

/-- Go constant `cacheTTL = 5 * time.Minute`, as used at line 68:
`int64(cacheTTL.Seconds()) = 300`. -/
def cacheTTLSeconds : Int := 300

/-! ## Credential cache (src/main.go lines 36-73) -/

/-- Go struct `TokenResponse`: the parsed output of `aws eks get-token`,
also the type of the cache slot `tokenCache`.  `expiry` is unix seconds. -/
structure TokenResponse where
  token : String
  expiry : Int
  deriving Repr, DecidableEq

/-- `getToken` (lines 42-73), as a pure state transition.
`cache` is the current value of the global `tokenCache` (under `cacheMutex`),
`now` is `time.Now().Unix()`, and `fetch` is the combined outcome of
`exec.Command("aws", "eks", "get-token", ...)` plus `json.Unmarshal`:
an error from either stage, or the parsed `TokenResponse`.
Returns the `(string, error)` result paired with the new cache state. -/
def getToken (cache : Option TokenResponse) (now : Int)
    (fetch : Except String TokenResponse) :
    Except String String × Option TokenResponse :=
  match cache with
  | some tc =>
    if now < tc.expiry then
      (Except.ok tc.token, some tc)
    else
      match fetch with
      | Except.error e => (Except.error e, some tc)
      | Except.ok resp =>
        let newTc : TokenResponse := ⟨resp.token, now + cacheTTLSeconds⟩
        (Except.ok newTc.token, some newTc)
  | none =>
    match fetch with
    | Except.error e => (Except.error e, none)
    | Except.ok resp =>
      let newTc : TokenResponse := ⟨resp.token, now + cacheTTLSeconds⟩
      (Except.ok newTc.token, some newTc)

/-! ## Go string primitives used by the source

`strings.Fields`, `strings.TrimSpace`, `bufio.Scanner` with `ScanLines`,
`strconv.Atoi`, and `regexp.MustCompile` applied to the literal
pattern `\bclient\b`. -/

/-- Go `unicode.IsSpace`: the white-space runes recognised by
`strings.Fields` and `strings.TrimSpace`, by code point: space, tab,
newline, vertical tab, form feed, carriage return, NEL, NBSP, and the
Unicode space separators. -/
def goIsSpace (c : Char) : Bool :=
  let v := c.toNat
  v = 32 || v = 9 || v = 10 || v = 11 || v = 12 || v = 13 ||
  v = 133 || v = 160 || v = 5760 || (8192 ≤ v && v ≤ 8202) ||
  v = 8232 || v = 8233 || v = 8239 || v = 8287 || v = 12288

/-- Accumulator pass of Go `strings.Fields`: break the text into maximal
runs of non-white-space characters (`acc` holds the current run reversed). -/
def fieldsAux (acc : List Char) : List Char → List (List Char)
  | [] => if acc = [] then [] else [acc.reverse]
  | c :: rest =>
    if goIsSpace c then
      if acc = [] then fieldsAux [] rest
      else acc.reverse :: fieldsAux [] rest
    else fieldsAux (c :: acc) rest

/-- Go `strings.Fields`: split around every maximal run of white space. -/
def goFields (s : String) : List String :=
  (fieldsAux [] s.toList).map String.mk

/-- Go `strings.TrimSpace`: drop leading and trailing white space. -/
def goTrimSpace (s : String) : String :=
  String.mk (((s.toList.dropWhile goIsSpace).reverse.dropWhile goIsSpace).reverse)

/-- Split a character list at every occurrence of `sep`; a trailing
separator yields a final empty segment, and an empty input is one empty
segment (as Go's slicing of the scanner buffer behaves). -/
def splitOnChar (sep : Char) : List Char → List (List Char)
  | [] => [[]]
  | c :: rest =>
    match splitOnChar sep rest with
    | [] => [[]]
    | r :: rs => if c = sep then [] :: r :: rs else (c :: r) :: rs

/-- Helper of `scanLines`: Go `bufio.dropCR` removes one trailing
carriage return from a scanned line. -/
def dropCRL (l : List Char) : List Char :=
  if l.getLast? = some '\r' then l.dropLast else l

/-- Go `bufio.Scanner` with the default `ScanLines` split function: the
sequence of lines produced by successive `scanner.Scan()` calls.  A final
token after the last newline is produced; a trailing newline does not
produce an extra empty token; each line loses one trailing `\r`. -/
def scanLines (s : String) : List String :=
  let ls := splitOnChar '\n' s.toList
  ((if ls.getLast? = some [] then ls.dropLast else ls).map dropCRL).map String.mk

/-- Go `strconv`'s digit test for base 10: an ASCII digit `0`-`9`. -/
def goIsDigit (c : Char) : Bool :=
  48 ≤ c.toNat && c.toNat ≤ 57

/-- ASCII word character of Go `regexp`'s `\b` boundary: `[0-9A-Za-z_]`. -/
def goWordChar (c : Char) : Bool :=
  let v := c.toNat
  (48 ≤ v && v ≤ 57) || (65 ≤ v && v ≤ 90) || (97 ≤ v && v ≤ 122) || v = 95

/-- The literal characters of the pattern `client`. -/
def clientChars : List Char := ['c', 'l', 'i', 'e', 'n', 't']

/-- `\b` holds before the match: start of text or a non-word character. -/
def boundaryBefore : Option Char → Bool
  | none => true
  | some c => !goWordChar c

/-- `\b` holds after the match: end of text or a non-word character. -/
def boundaryAfter : List Char → Bool
  | [] => true
  | c :: _ => !goWordChar c

/-- Scan for an occurrence of `client` delimited by word boundaries,
remembering the previous character `prev` (none at the start of text). -/
def matchClientFrom (prev : Option Char) : List Char → Bool
  | [] => false
  | c :: rest =>
    (boundaryBefore prev && clientChars.isPrefixOf (c :: rest) &&
      boundaryAfter ((c :: rest).drop clientChars.length)) ||
    matchClientFrom (some c) rest

/-- Go `podRegex.MatchString(s)` for `podRegex = regexp.MustCompile` of the
pattern `\bclient\b` (line 30): some occurrence of the word `client`
delimited by ASCII word boundaries. -/
def podRegexMatch (s : String) : Bool :=
  matchClientFrom none s.toList

/-! ## Target discovery: `getPods` (src/main.go lines 76-96) -/

/-- The argument vector of the discovery command
`kubectl get pods -n fpms --field-selector=status.phase=Running` (line 78):
the activity restriction to running pods is expressed in the request. -/
def getPodsCmdArgs : List String :=
  ["get", "pods", "-n", k8sNamespace, "--field-selector=status.phase=Running"]

/-- The per-line filter of `getPods` (lines 86-92): keep the first
white-space-delimited field of each line whose first field matches
`podRegex`; lines with no fields are skipped. -/
def getPodsFilter (out : String) : List String :=
  (scanLines out).filterMap (fun line =>
    match goFields line with
    | [] => none
    | f :: _ => if podRegexMatch f then some f else none)

/-- `getPods` (lines 76-96): `cmdOut` is the outcome of `cmd.Output()`.
On command failure the error is returned; otherwise every line of the
output is scanned and filtered.  (`scanner.Err()` over an in-memory
`bytes.Reader` is always `nil`.) -/
def getPods (cmdOut : Except String String) : Except String (List String) :=
  match cmdOut with
  | Except.error e => Except.error e
  | Except.ok out => Except.ok (getPodsFilter out)

/-! ## Probe executor: `countTCPConnections` (src/main.go lines 99-124) -/

/-- Numeric value of a list of ASCII digits. -/
def digitsVal (ds : List Char) : Nat :=
  ds.foldl (fun a c => a * 10 + (c.toNat - 48)) 0

/-- Core of Go `strconv.Atoi` = `strconv.ParseInt(s, 10, 0)` on a 64-bit
platform, over the character list of the input: an optional single `+`/`-`
sign followed by at least one ASCII digit, value within the signed 64-bit
range; anything else is an error (`invalid syntax` / `value out of range`,
the bounds being the 64-bit cutoffs of `ParseInt`). -/
def goAtoiL : List Char → Except String Int
  | [] => Except.error "invalid syntax"
  | c :: rest =>
    let ds := if c = '+' ∨ c = '-' then rest else c :: rest
    if ds = [] ∨ ds.all goIsDigit = false then Except.error "invalid syntax"
    else
      let n : Int := (if c = '-' then -1 else 1) * (digitsVal ds : Int)
      if n < -9223372036854775808 ∨ 9223372036854775807 < n then
        Except.error "value out of range"
      else Except.ok n

/-- Go `strconv.Atoi`. -/
def goAtoi (s : String) : Except String Int :=
  goAtoiL s.toList

/-- `countTCPConnections` (lines 99-124).  `cmdOut` is the outcome of the
`kubectl exec` probe command (stdout text, or the execution error, which
covers target unreachable and tool provisioning failure).  On success the
stdout is trimmed and parsed with `strconv.Atoi`; a parse failure is
wrapped in an error naming the pod. -/
def countTCPConnections (pod : String) (cmdOut : Except String String) :
    Except String Int :=
  match cmdOut with
  | Except.error e => Except.error e
  | Except.ok out =>
    let countStr := goTrimSpace out
    match goAtoi countStr with
    | Except.error e =>
      Except.error ("failed to parse TCP connection count for pod " ++ pod ++ ": " ++ e)
    | Except.ok count => Except.ok count

/-! ## Publisher: `sendToPushGateway` (src/main.go lines 127-144) -/

/-- An HTTP response as seen by `sendToPushGateway`. -/
structure HTTPResponse where
  statusCode : Nat
  body : String
  deriving Repr, DecidableEq

/-- The request body built at line 128: `fmt.Sprintf("client_tcp_new %d\n", n)`. -/
def pushGatewayBody (n : Int) : String :=
  "client_tcp_new " ++ toString n ++ "\n"

/-- `sendToPushGateway` (lines 127-144).  `post` is the `http.Post` oracle,
mapping the request body to a transport error or the response.  A response
with status other than `http.StatusOK` (200) becomes an error carrying the
response body; status 200 is success. -/
def sendToPushGateway (totalTCPConnections : Int)
    (post : String → Except String HTTPResponse) : Except String Unit :=
  let data := pushGatewayBody totalTCPConnections
  match post data with
  | Except.error e => Except.error e
  | Except.ok r =>
    if r.statusCode ≠ 200 then
      Except.error ("Push Gateway error: " ++ r.body)
    else
      Except.ok ()

/-! ## Main run (src/main.go lines 147-202)

`main` wires the pipeline: `getPods`, then one `getToken`, then one probe
goroutine per pod under the `workers` channel cap, accumulating
`totalTCPConnections` under `mu` and printing the total.  The data flow is
modelled by `runModel`; the admission discipline of the worker pool is
modelled separately by `schedStep`/`schedRun` below. -/

/-- The external world of one run: the outcome of the discovery command,
of the token fetch, and of each probe command (as a function of the token
placed in `KUBECONFIG` at line 108 and of the pod probed). -/
structure RunInput where
  podsCmdOut : Except String String
  tokenFetch : Except String TokenResponse
  probeCmdOut : String → String → Except String String
  now : Int

/-- Observable milestones of a run, in program order. -/
inductive RunEv
  | discovery
  | tokenFetch
  | probe (pod : String)
  deriving Repr, DecidableEq

/-- What a run produces: the printed aggregate (`none` when the run
returned early on a fatal error), the pods that were probed, the per-pod
failure diagnostics (line 181), and the milestone trace. -/
structure RunOutput where
  aggregate : Option Int
  probed : List String
  diagnostics : List (String × String)
  events : List RunEv
  deriving Repr, DecidableEq

/-- One probe invocation as run by the goroutine at lines 175-188:
`countTCPConnections` applied to the outcome of the pod's exec command. -/
def probeResult (inp : RunInput) (token : String) (pod : String) :
    Except String Int :=
  countTCPConnections pod (inp.probeCmdOut token pod)

/-- The shared accumulation of `totalTCPConnections` (lines 157, 185-187),
over the probe results in completion order: each successful count is added
under `mu`; a failed probe adds nothing. -/
def foldResults : List (Except String Int) → Int
  | [] => 0
  | Except.ok n :: rest => n + foldResults rest
  | Except.error _ :: rest => foldResults rest

/-- The diagnostics printed at line 181: one `(pod, cause)` entry per
failed probe. -/
def probeDiagnostics (probe : String → Except String Int)
    (pods : List String) : List (String × String) :=
  pods.filterMap (fun p =>
    match probe p with
    | Except.error e => some (p, e)
    | Except.ok _ => none)

/-- `main` (lines 147-202) as a function of the run's external world.
Discovery failure returns early (lines 152-155); then the token is fetched
once from an initially empty cache (`tokenCache` starts `nil`); a token
failure returns early (lines 163-167); otherwise every pod is probed and
the successful counts are summed.  The `events` field records the order:
discovery, then the single token fetch, then the probe dispatches. -/
def runModel (inp : RunInput) : RunOutput :=
  match getPods inp.podsCmdOut with
  | Except.error _ => ⟨none, [], [], [RunEv.discovery]⟩
  | Except.ok pods =>
    match getToken none inp.now inp.tokenFetch with
    | (Except.error _, _) => ⟨none, [], [], [RunEv.discovery, RunEv.tokenFetch]⟩
    | (Except.ok token, _) =>
      ⟨some (foldResults (pods.map (probeResult inp token))),
       pods,
       probeDiagnostics (probeResult inp token) pods,
       [RunEv.discovery, RunEv.tokenFetch] ++ pods.map RunEv.probe⟩

/-! ## Worker-pool admission (src/main.go lines 160, 169-192)

The `workers` channel of line 160, with capacity `maxConcurrentConnections`, is a counting
semaphore: the dispatch loop sends into the channel before spawning each
goroutine (line 173) and blocks when `cap` slots are taken; every goroutine
receives from the channel on exit via `defer` (line 177), on the failure
path (line 182) as on the success path.  States and steps: -/

/-- Scheduler state: pods not yet dispatched, and the pods whose probe
goroutines currently hold a worker slot. -/
structure SchedState where
  pending : List String
  running : List String
  deriving Repr, DecidableEq

/-- Scheduler events: dispatching the next pod's goroutine (the channel
send at line 173 plus the `go` at line 175), or a goroutine finishing with
success or failure and releasing its slot (the deferred receive, line 177). -/
inductive SchedEv
  | dispatch (pod : String)
  | complete (pod : String) (ok : Bool)
  deriving Repr, DecidableEq

/-- One scheduler step; `none` means the event cannot fire now: a dispatch
blocks while `cap` slots are taken (the channel send blocks when full), and
only a running goroutine can complete. -/
def schedStep (cap : Nat) (s : SchedState) : SchedEv → Option SchedState
  | SchedEv.dispatch p =>
    match s.pending with
    | [] => none
    | q :: rest =>
      if q = p ∧ s.running.length < cap then some ⟨rest, p :: s.running⟩
      else none
  | SchedEv.complete p _ok =>
    if p ∈ s.running then some ⟨s.pending, s.running.erase p⟩ else none

/-- Run a sequence of scheduler events from a state; `none` if any event
is blocked or illegal at its turn. -/
def schedRun (cap : Nat) (s : SchedState) : List SchedEv → Option SchedState
  | [] => some s
  | e :: es =>
    match schedStep cap s e with
    | none => none
    | some s2 => schedRun cap s2 es

/-- The scheduler state at the start of the dispatch loop (line 169):
all pods pending, no slot taken. -/
def initSched (pods : List String) : SchedState :=
  ⟨pods, []⟩

/-! ## Helper lemmas -/

/-- The running total equals the sum of the successful results. -/
theorem foldResults_eq_sum (l : List (Except String Int)) :
    foldResults l = (l.filterMap Except.toOption).sum := by
  induction l with
  | nil => rfl
  | cons r rest ih =>
    cases r with
    | ok n => simp [foldResults, Except.toOption, List.filterMap_cons, ih]
    | error e => simp [foldResults, Except.toOption, List.filterMap_cons, ih]

/-- The running total is invariant under permutation of completion order. -/
theorem foldResults_perm {l₁ l₂ : List (Except String Int)} (h : l₁.Perm l₂) :
    foldResults l₁ = foldResults l₂ := by
  rw [foldResults_eq_sum, foldResults_eq_sum]
  exact (h.filterMap Except.toOption).sum_eq

/-- One scheduler step keeps the number of taken slots at or below `cap`. -/
theorem schedStep_running_le {cap : Nat} {s s₂ : SchedState} {e : SchedEv}
    (hle : s.running.length ≤ cap) (h : schedStep cap s e = some s₂) :
    s₂.running.length ≤ cap := by
  cases e with
  | dispatch p =>
    simp only [schedStep] at h
    cases hp : s.pending with
    | nil => rw [hp] at h; exact Option.noConfusion h
    | cons q rest =>
      rw [hp] at h
      have h2 : (if q = p ∧ s.running.length < cap then
          some (SchedState.mk rest (p :: s.running)) else none) = some s₂ := h
      by_cases hc : q = p ∧ s.running.length < cap
      · rw [if_pos hc] at h2
        cases h2
        have := hc.2
        simp only [List.length_cons]
        omega
      · rw [if_neg hc] at h2
        exact Option.noConfusion h2
  | complete p ok =>
    simp only [schedStep] at h
    by_cases hc : p ∈ s.running
    · rw [if_pos hc] at h
      cases h
      show (s.running.erase p).length ≤ cap
      rw [List.length_erase_of_mem hc]
      omega
    · rw [if_neg hc] at h
      exact Option.noConfusion h

/-- A whole event sequence keeps the number of taken slots at or below `cap`. -/
theorem schedRun_running_le {cap : Nat} {s s₂ : SchedState} {evs : List SchedEv}
    (h : schedRun cap s evs = some s₂) (hle : s.running.length ≤ cap) :
    s₂.running.length ≤ cap := by
  induction evs generalizing s with
  | nil => simp only [schedRun] at h; cases h; exact hle
  | cons e es ih =>
    simp only [schedRun] at h
    cases hstep : schedStep cap s e with
    | none => rw [hstep] at h; exact absurd h (by simp)
    | some s1 =>
      rw [hstep] at h
      exact ih h (schedStep_running_le hle hstep)

/-! ## Claims -/

/-- C1: for every run whose discovery and token fetch succeed, the final
aggregate equals the sum of the successful per-pod counts, and the shared
accumulation yields that same sum in any completion order (`order` is any
permutation of the dispatched pods); when every probe fails the aggregate
is 0 and the run still completes with an aggregate rather than aborting. -/
theorem c1_aggregate_order_independent (inp : RunInput) (pods : List String)
    (token : String) (st : Option TokenResponse) (order : List String)
    (hpods : getPods inp.podsCmdOut = Except.ok pods)
    (htok : getToken none inp.now inp.tokenFetch = (Except.ok token, st))
    (hperm : order.Perm pods) :
    foldResults (order.map (probeResult inp token)) =
      ((pods.map (probeResult inp token)).filterMap Except.toOption).sum ∧
    (runModel inp).aggregate =
      some (((pods.map (probeResult inp token)).filterMap Except.toOption).sum) ∧
    ((∀ p ∈ pods, (probeResult inp token p).toOption = none) →
      (runModel inp).aggregate = some 0) := by
  have hagg : (runModel inp).aggregate =
      some (foldResults (pods.map (probeResult inp token))) := by
    simp only [runModel, hpods, htok]
  have hsum := foldResults_eq_sum (pods.map (probeResult inp token))
  refine ⟨?_, ?_, ?_⟩
  · rw [foldResults_perm (hperm.map (probeResult inp token)), hsum]
  · rw [hagg, hsum]
  · intro hfail
    rw [hagg, hsum]
    have : (pods.map (probeResult inp token)).filterMap Except.toOption = [] := by
      rw [List.filterMap_eq_nil_iff]
      intro r hr
      rcases List.mem_map.mp hr with ⟨p, hp, rfl⟩
      exact hfail p hp
    rw [this]
    rfl

/-- Witness for C1 at a concrete run: two pods, one succeeding with 5
and one failing, checked in the reversed completion order. -/
def c1WitnessInput : RunInput :=
  ⟨Except.ok "client-a 1/1 Running\nclient-b 1/1 Running\n",
   Except.ok ⟨"tok", 999⟩,
   fun _ p => if p = "client-a" then Except.ok "5\n" else Except.error "boom",
   0⟩

/-- C1 at the concrete run `c1WitnessInput`. -/
theorem c1_witness :
    (runModel c1WitnessInput).aggregate =
      some (((["client-a", "client-b"].map
        (probeResult c1WitnessInput "tok")).filterMap Except.toOption).sum) :=
  (c1_aggregate_order_independent c1WitnessInput ["client-a", "client-b"] "tok"
    (some ⟨"tok", 300⟩) ["client-b", "client-a"]
    rfl rfl (List.Perm.swap "client-a" "client-b" [])).2.1

/-- C2: along any admissible event sequence of the worker pool, the number
of simultaneously held slots never exceeds the ceiling `cap`; when all
`cap` slots are taken, the next dispatch blocks (the step is not enabled);
and a running invocation can always complete, releasing exactly one slot,
whether it succeeded or failed. -/
theorem c2_admission_bound (cap : Nat) (pods : List String) (evs : List SchedEv)
    (s : SchedState) (h : schedRun cap (initSched pods) evs = some s) :
    s.running.length ≤ cap ∧
    (s.running.length = cap → ∀ p, schedStep cap s (SchedEv.dispatch p) = none) ∧
    (∀ p ∈ s.running, ∀ ok,
      ∃ s₂, schedStep cap s (SchedEv.complete p ok) = some s₂ ∧
        s₂.running.length + 1 = s.running.length) := by
  have hle : s.running.length ≤ cap :=
    schedRun_running_le h (by simp [initSched])
  refine ⟨hle, ?_, ?_⟩
  · intro hcap p
    simp only [schedStep]
    cases hp : s.pending with
    | nil => rfl
    | cons q rest =>
      show (if q = p ∧ s.running.length < cap then
          some (SchedState.mk rest (p :: s.running)) else none) = none
      rw [if_neg]
      rintro ⟨-, hlt⟩
      omega
  · intro p hp ok
    refine ⟨⟨s.pending, s.running.erase p⟩, ?_, ?_⟩
    · show (if p ∈ s.running then
          some (SchedState.mk s.pending (s.running.erase p)) else none) =
        some ⟨s.pending, s.running.erase p⟩
      rw [if_pos hp]
    · show (s.running.erase p).length + 1 = s.running.length
      rw [List.length_erase_of_mem hp]
      have h2 : 0 < s.running.length := List.length_pos_of_mem hp
      omega

/-- C2 at a concrete trace: ceiling 1, one dispatch taken, slot count 1. -/
theorem c2_witness :
    (SchedState.mk ["b"] ["a"]).running.length ≤ 1 :=
  (c2_admission_bound 1 ["a", "b"] [SchedEv.dispatch "a"]
    (SchedState.mk ["b"] ["a"]) rfl).1

/-- C3: the credential acquire never hands out an expired credential.
Fast path: a cached, unexpired credential is returned unchanged without
consulting the fetch.  Slow path: when no unexpired cache entry exists and
the fetch succeeds, the cache is replaced by the fetched token with expiry
`now + cacheTTLSeconds` — the issuer-reported `expiry` field is ignored —
before the token is handed out.  Whenever a token is returned, the stored
entry holds that token and its expiry lies strictly after `now`. -/
theorem c3_getToken_contract (cache : Option TokenResponse) (now : Int)
    (fetch : Except String TokenResponse) :
    (∀ tc, cache = some tc → now < tc.expiry →
      getToken cache now fetch = (Except.ok tc.token, some tc)) ∧
    ((∀ tc, cache = some tc → tc.expiry ≤ now) →
      ∀ resp, fetch = Except.ok resp →
        getToken cache now fetch =
          (Except.ok resp.token, some ⟨resp.token, now + cacheTTLSeconds⟩)) ∧
    (∀ tok st, getToken cache now fetch = (Except.ok tok, st) →
      ∃ tc, st = some tc ∧ tc.token = tok ∧ now < tc.expiry) := by
  refine ⟨?_, ?_, ?_⟩
  · rintro tc rfl hlt
    simp [getToken, hlt]
  · intro hexp resp hfetch
    cases cache with
    | none => simp [getToken, hfetch]
    | some tc =>
      have hnlt : ¬ now < tc.expiry := by have := hexp tc rfl; omega
      simp [getToken, hnlt, hfetch]
  · intro tok st h
    cases cache with
    | none =>
      cases fetch with
      | error e => simp [getToken] at h
      | ok resp =>
        simp only [getToken] at h
        injection h with h1 h2
        injection h1 with h1
        refine ⟨⟨resp.token, now + cacheTTLSeconds⟩, h2.symm, h1, ?_⟩
        show now < now + (300 : Int)
        omega
    | some tc =>
      by_cases hlt : now < tc.expiry
      · simp only [getToken, if_pos hlt] at h
        injection h with h1 h2
        injection h1 with h1
        exact ⟨tc, h2.symm, h1, hlt⟩
      · cases fetch with
        | error e =>
          simp only [getToken, if_neg hlt] at h
          injection h with h1 h2
          exact Except.noConfusion h1
        | ok resp =>
          simp only [getToken, if_neg hlt] at h
          injection h with h1 h2
          injection h1 with h1
          refine ⟨⟨resp.token, now + cacheTTLSeconds⟩, h2.symm, h1, ?_⟩
          show now < now + (300 : Int)
          omega

/-- C3 at a concrete state: cached token valid (5 < 10) is returned
unchanged while the fetch oracle is failing, so no external call happened. -/
theorem c3_witness :
    getToken (some ⟨"abc", 10⟩) 5 (Except.error "issuer down") =
      (Except.ok "abc", some ⟨"abc", 10⟩) :=
  (c3_getToken_contract (some ⟨"abc", 10⟩) 5 (Except.error "issuer down")).1
    ⟨"abc", 10⟩ rfl (by decide)

/-- C4: a discovery failure aborts the run at once — no token fetch event,
no probes, no aggregate; a token failure aborts after discovery but before
any probe, with no aggregate; once both succeed, every pod is probed, a
failing probe surfaces a `(pod, cause)` diagnostic, and the aggregate is
still produced as the sum of the successful counts (the failure is merely
excluded). -/
theorem c4_fatal_short_circuit (inp : RunInput) :
    (∀ e, getPods inp.podsCmdOut = Except.error e →
      runModel inp = ⟨none, [], [], [RunEv.discovery]⟩) ∧
    (∀ pods e st, getPods inp.podsCmdOut = Except.ok pods →
      getToken none inp.now inp.tokenFetch = (Except.error e, st) →
      runModel inp = ⟨none, [], [], [RunEv.discovery, RunEv.tokenFetch]⟩) ∧
    (∀ pods token st, getPods inp.podsCmdOut = Except.ok pods →
      getToken none inp.now inp.tokenFetch = (Except.ok token, st) →
      (runModel inp).probed = pods ∧
      (∀ p ∈ pods, ∀ e, probeResult inp token p = Except.error e →
        (p, e) ∈ (runModel inp).diagnostics) ∧
      (runModel inp).aggregate =
        some (((pods.map (probeResult inp token)).filterMap Except.toOption).sum)) := by
  refine ⟨?_, ?_, ?_⟩
  · intro e he
    simp only [runModel, he]
  · intro pods e st h1 h2
    simp only [runModel, h1, h2]
  · intro pods token st h1 h2
    have hrun : runModel inp =
        ⟨some (foldResults (pods.map (probeResult inp token))), pods,
         probeDiagnostics (probeResult inp token) pods,
         [RunEv.discovery, RunEv.tokenFetch] ++ pods.map RunEv.probe⟩ := by
      simp only [runModel, h1, h2]
    refine ⟨by rw [hrun], ?_, by rw [hrun, foldResults_eq_sum]⟩
    intro p hp e hpe
    rw [hrun]
    show (p, e) ∈ probeDiagnostics (probeResult inp token) pods
    exact List.mem_filterMap.mpr ⟨p, hp, by rw [hpe]⟩

/-- Input whose discovery command fails. -/
def c4WitnessInput : RunInput :=
  ⟨Except.error "kubectl failed", Except.ok ⟨"t", 0⟩, fun _ _ => Except.ok "0", 0⟩

/-- C4 at a concrete run: a failed discovery aborts with nothing probed. -/
theorem c4_witness :
    runModel c4WitnessInput = ⟨none, [], [], [RunEv.discovery]⟩ :=
  (c4_fatal_short_circuit c4WitnessInput).1 "kubectl failed" rfl

/-- C7: when the fetch oracle fails, `getToken` leaves the cache entry
exactly as it was; and whenever the slow path is the one taken (no valid
cached entry), the fetch error itself is propagated with the cache intact. -/
theorem c7_failed_fetch_cache_unchanged (cache : Option TokenResponse)
    (now : Int) (e : String) :
    (getToken cache now (Except.error e)).2 = cache ∧
    ((∀ tc, cache = some tc → tc.expiry ≤ now) →
      getToken cache now (Except.error e) = (Except.error e, cache)) := by
  cases cache with
  | none => exact ⟨rfl, fun _ => rfl⟩
  | some tc =>
    by_cases hlt : now < tc.expiry
    · constructor
      · simp [getToken, hlt]
      · intro hexp
        have := hexp tc rfl
        omega
    · constructor
      · simp [getToken, hlt]
      · intro _
        simp [getToken, hlt]

/-- C7 at a concrete state: expired cache entry (10 ≤ 20), failing fetch:
the error propagates and the old entry is still there, unchanged. -/
theorem c7_witness :
    getToken (some ⟨"abc", 10⟩) 20 (Except.error "issuer down") =
      (Except.error "issuer down", some ⟨"abc", 10⟩) :=
  (c7_failed_fetch_cache_unchanged (some ⟨"abc", 10⟩) 20 "issuer down").2
    (by intro tc h; cases h; decide)

/-- C10: whenever discovery succeeds — even with zero pods — the event
trace contains exactly one token acquisition, placed directly after
discovery and before every probe dispatch; and if that acquisition fails
the run aborts with no aggregate and nothing probed. -/
theorem c10_single_token_fetch (inp : RunInput) (pods : List String)
    (hpods : getPods inp.podsCmdOut = Except.ok pods) :
    (runModel inp).events.count RunEv.tokenFetch = 1 ∧
    (∃ rest, (runModel inp).events =
        RunEv.discovery :: RunEv.tokenFetch :: rest ∧
      ∀ ev ∈ rest, ∃ p, ev = RunEv.probe p) ∧
    (∀ e st, getToken none inp.now inp.tokenFetch = (Except.error e, st) →
      (runModel inp).aggregate = none ∧ (runModel inp).probed = []) := by
  rcases htok : getToken none inp.now inp.tokenFetch with ⟨tokres, st⟩
  cases tokres with
  | error e =>
    have hrun : runModel inp = ⟨none, [], [], [RunEv.discovery, RunEv.tokenFetch]⟩ := by
      simp only [runModel, hpods, htok]
    refine ⟨by rw [hrun]; rfl, ⟨[], by rw [hrun]; exact ⟨rfl, by simp⟩⟩, ?_⟩
    intro e2 st2 _
    rw [hrun]
    exact ⟨rfl, rfl⟩
  | ok token =>
    have hrun : runModel inp =
        ⟨some (foldResults (pods.map (probeResult inp token))), pods,
         probeDiagnostics (probeResult inp token) pods,
         [RunEv.discovery, RunEv.tokenFetch] ++ pods.map RunEv.probe⟩ := by
      simp only [runModel, hpods, htok]
    refine ⟨?_, ⟨pods.map RunEv.probe, by rw [hrun]; rfl, ?_⟩, ?_⟩
    · rw [hrun]
      show ((RunEv.discovery :: RunEv.tokenFetch :: pods.map RunEv.probe).count
        RunEv.tokenFetch) = 1
      have hzero : (pods.map RunEv.probe).count RunEv.tokenFetch = 0 := by
        rw [List.count_eq_zero]
        intro hmem
        rcases List.mem_map.mp hmem with ⟨p, -, hpe⟩
        exact RunEv.noConfusion hpe
      simp [List.count_cons, hzero]
    · intro ev hev
      rcases List.mem_map.mp hev with ⟨p, -, rfl⟩
      exact ⟨p, rfl⟩
    · intro e st2 h2
      injection h2 with h3 _
      exact Except.noConfusion h3

/-- Input with one discovered pod and a failing token fetch. -/
def c10WitnessInput : RunInput :=
  ⟨Except.ok "client-a 1/1 Running", Except.error "credential fetch down",
   fun _ _ => Except.ok "0", 0⟩

/-- C10 at a concrete run: discovery found a pod, the single token fetch
failed, so no aggregate was produced and nothing was probed. -/
theorem c10_witness :
    (runModel c10WitnessInput).aggregate = none ∧
    (runModel c10WitnessInput).probed = [] :=
  (c10_single_token_fetch c10WitnessInput ["client-a"] rfl).2.2
    "credential fetch down" none rfl

/-- Zero discovered targets, but a failing credential fetch. -/
def c6Input : RunInput :=
  ⟨Except.ok "", Except.error "credential issuer down",
   fun _ _ => Except.ok "0", 0⟩

/-- C6 as stated is false: here discovery succeeds with zero targets, yet
the run does not complete with AggregateCount 0 — the credential fetch
fails and the run aborts with no aggregate at all. -/
theorem c6_counterexample :
    getPods c6Input.podsCmdOut = Except.ok [] ∧
    (runModel c6Input).aggregate = none ∧
    ¬ (runModel c6Input).aggregate = some 0 :=
  ⟨rfl, rfl, by decide⟩

/-- C6 amended: if discovery succeeds with zero targets and the credential
fetch succeeds, the run completes with AggregateCount 0 and no probe
invocation ever occurs. -/
theorem c6_zero_targets_amended (inp : RunInput) (token : String)
    (st : Option TokenResponse)
    (hpods : getPods inp.podsCmdOut = Except.ok [])
    (htok : getToken none inp.now inp.tokenFetch = (Except.ok token, st)) :
    (runModel inp).aggregate = some 0 ∧
    (runModel inp).probed = [] ∧
    ∀ p, RunEv.probe p ∉ (runModel inp).events := by
  have hrun : runModel inp =
      ⟨some (foldResults (([] : List String).map (probeResult inp token))), [],
       probeDiagnostics (probeResult inp token) [],
       [RunEv.discovery, RunEv.tokenFetch] ++
         ([] : List String).map RunEv.probe⟩ := by
    simp only [runModel, hpods, htok]
  rw [hrun]
  refine ⟨rfl, rfl, ?_⟩
  intro p
  simp

/-- Zero discovered targets and a succeeding token fetch. -/
def c6OkInput : RunInput :=
  ⟨Except.ok "", Except.ok ⟨"t", 0⟩, fun _ _ => Except.ok "0", 0⟩

/-- C6 (amended) at a concrete run: zero targets, fetch fine, aggregate 0. -/
theorem c6_witness : (runModel c6OkInput).aggregate = some 0 :=
  (c6_zero_targets_amended c6OkInput "t" (some ⟨"t", 300⟩) rfl rfl).1

/-- The per-line selection of `getPods` keeps, in row order, exactly the
first white-space-delimited field of each row, restricted to fields that
match the eligibility pattern. -/
theorem filter_first_fields (rows : List String) :
    rows.filterMap (fun line =>
      match goFields line with
      | [] => none
      | f :: _ => if podRegexMatch f then some f else none) =
    (rows.filterMap (fun row => (goFields row).head?)).filter podRegexMatch := by
  induction rows with
  | nil => rfl
  | cons row rows ih =>
    simp only [List.filterMap_cons]
    cases hf : goFields row with
    | nil => simpa using ih
    | cons f fs =>
      by_cases hm : podRegexMatch f
      · simp [hm, List.filter_cons, ih]
      · simp [hm, List.filter_cons, ih]

/-- C8: discovery returns, in input row order, exactly the first
white-space-delimited field of each output row whose first field matches
the eligibility pattern; the restriction to running targets is carried by
the request's field selector; and when no candidate qualifies the result
is the empty list, not an error. -/
theorem c8_discovery (out : String) :
    getPods (Except.ok out) =
      Except.ok
        (((scanLines out).filterMap (fun row => (goFields row).head?)).filter
          podRegexMatch) ∧
    "--field-selector=status.phase=Running" ∈ getPodsCmdArgs ∧
    (((scanLines out).filterMap (fun row => (goFields row).head?)).all
        (fun f => !podRegexMatch f) = true →
      getPods (Except.ok out) = Except.ok []) := by
  have h1 : getPods (Except.ok out) =
      Except.ok
        (((scanLines out).filterMap (fun row => (goFields row).head?)).filter
          podRegexMatch) :=
    congrArg Except.ok (filter_first_fields (scanLines out))
  refine ⟨h1, by simp [getPodsCmdArgs], ?_⟩
  intro hall
  have h2 : ((scanLines out).filterMap (fun row => (goFields row).head?)).filter
      podRegexMatch = [] := by
    rw [List.filter_eq_nil_iff]
    intro f hf
    have := List.all_eq_true.mp hall f hf
    simpa using this
  rw [h1, h2]

/-- C8 at concrete collaborator output: a header row and one non-matching
pod row qualify nothing, and discovery returns the empty list. -/
theorem c8_witness :
    getPods (Except.ok "NAME READY STATUS\nfoo-1 1/1 Running") =
      Except.ok [] :=
  (c8_discovery "NAME READY STATUS\nfoo-1 1/1 Running").2.2 (by decide)

/-- C9 as stated is false: the Publisher does not accept every 2xx status.
Status 202 is a 2xx success status, yet `sendToPushGateway` returns an
error carrying the response body, because the source compares the status
with `http.StatusOK` (200) exactly. -/
theorem c9_counterexample :
    (200 ≤ 202 ∧ 202 < 300) ∧
    sendToPushGateway 7 (fun _ => Except.ok ⟨202, "accepted"⟩) =
      Except.error ("Push Gateway error: " ++ "accepted") :=
  ⟨by decide, rfl⟩

/-- C9 amended: the Publisher consults the HTTP oracle only at the body
built for aggregate `n` (so that body is what is posted); it returns
success exactly when the response status is 200; every other status yields
an error whose diagnostic is the response body; a transport error is
propagated unchanged. -/
theorem c9_push_amended (n : Int)
    (post : String → Except String HTTPResponse) :
    (∀ post2 : String → Except String HTTPResponse,
      post (pushGatewayBody n) = post2 (pushGatewayBody n) →
      sendToPushGateway n post = sendToPushGateway n post2) ∧
    (∀ r, post (pushGatewayBody n) = Except.ok r →
      ((sendToPushGateway n post = Except.ok ()) ↔ r.statusCode = 200) ∧
      (r.statusCode ≠ 200 →
        sendToPushGateway n post =
          Except.error ("Push Gateway error: " ++ r.body))) ∧
    (∀ e, post (pushGatewayBody n) = Except.error e →
      sendToPushGateway n post = Except.error e) := by
  refine ⟨?_, ?_, ?_⟩
  · intro post2 heq
    simp only [sendToPushGateway, heq]
  · intro r hr
    constructor
    · constructor
      · intro h
        by_contra hne
        simp only [sendToPushGateway, hr] at h
        rw [if_pos hne] at h
        exact Except.noConfusion h
      · intro h200
        simp only [sendToPushGateway, hr]
        rw [if_neg (not_not_intro h200)]
    · intro hne
      simp only [sendToPushGateway, hr]
      rw [if_pos hne]
  · intro e he
    simp only [sendToPushGateway, he]

/-- C9 (amended) at a concrete response: status 200 is accepted. -/
theorem c9_witness :
    sendToPushGateway 12 (fun _ => Except.ok ⟨200, ""⟩) = Except.ok () :=
  (((c9_push_amended 12 (fun _ => Except.ok ⟨200, ""⟩)).2.1
    ⟨200, ""⟩ rfl).1).mpr rfl

/-! ## The probe-output contract (claim C5) -/

/-- An ASCII digit is not white space. -/
theorem not_space_of_digit {c : Char} (h : goIsDigit c = true) :
    goIsSpace c = false := by
  simp only [goIsDigit, Bool.and_eq_true, decide_eq_true_eq] at h
  simp only [goIsSpace, Bool.or_eq_false_iff, Bool.and_eq_false_iff,
    decide_eq_false_iff_not]
  omega

/-- Dropping a while-prefix across an append whose left part satisfies the
predicate and whose right part starts (if at all) with a failing element. -/
theorem dropWhile_append_eq {p : Char → Bool} (w m : List Char)
    (hw : ∀ c ∈ w, p c = true)
    (hm : ∀ c, m.head? = some c → p c = false) :
    (w ++ m).dropWhile p = m := by
  induction w with
  | nil =>
    simp only [List.nil_append]
    cases m with
    | nil => rfl
    | cons c m2 =>
      rw [List.dropWhile_cons, if_neg]
      simp [hm c rfl]
  | cons c w2 ih =>
    rw [List.cons_append, List.dropWhile_cons,
      if_pos (hw c (List.mem_cons_self c w2))]
    exact ih (fun d hd => hw d (List.mem_cons_of_mem c hd))

/-- The head of a nonempty left part survives an append. -/
theorem head?_append_left {α : Type} (l₁ l₂ : List α) (h : l₁ ≠ []) :
    (l₁ ++ l₂).head? = l₁.head? := by
  cases l₁ with
  | nil => exact absurd rfl h
  | cons a l => rfl

/-- An element named by `head?` is a member. -/
theorem mem_of_head?_eq {α : Type} {l : List α} {a : α}
    (h : l.head? = some a) : a ∈ l := by
  cases l with
  | nil => exact Option.noConfusion h
  | cons b l =>
    injection h with h
    rw [← h]
    exact List.mem_cons_self b l

/-- `TrimSpace` splits the input into all-space margins around its result. -/
theorem trim_decomp (s : String) :
    ∃ w₁ w₂, s.toList = w₁ ++ (goTrimSpace s).toList ++ w₂ ∧
      (∀ c ∈ w₁, goIsSpace c = true) ∧ (∀ c ∈ w₂, goIsSpace c = true) := by
  refine ⟨s.toList.takeWhile goIsSpace,
    ((s.toList.dropWhile goIsSpace).reverse.takeWhile goIsSpace).reverse,
    ?_, ?_, ?_⟩
  · show s.toList = s.toList.takeWhile goIsSpace ++
      ((s.toList.dropWhile goIsSpace).reverse.dropWhile goIsSpace).reverse ++
      ((s.toList.dropWhile goIsSpace).reverse.takeWhile goIsSpace).reverse
    have h3 : s.toList.dropWhile goIsSpace =
        ((s.toList.dropWhile goIsSpace).reverse.dropWhile goIsSpace).reverse ++
        ((s.toList.dropWhile goIsSpace).reverse.takeWhile goIsSpace).reverse := by
      conv_lhs =>
        rw [← (s.toList.dropWhile goIsSpace).reverse_reverse,
          ← List.takeWhile_append_dropWhile goIsSpace
            (s.toList.dropWhile goIsSpace).reverse]
      rw [List.reverse_append]
    conv_lhs =>
      rw [← List.takeWhile_append_dropWhile goIsSpace s.toList, h3]
    rw [List.append_assoc]
  · intro c hc
    exact List.mem_takeWhile_imp hc
  · intro c hc
    rw [List.mem_reverse] at hc
    exact List.mem_takeWhile_imp hc

/-- When the input splits into an all-space prefix, a middle part that
starts and ends with a non-space character, and an all-space suffix,
`TrimSpace` returns exactly the middle part. -/
theorem goTrimSpace_toList_of_decomp (out : String) (w₁ mid w₂ : List Char)
    (hout : out.toList = w₁ ++ (mid ++ w₂))
    (hw₁ : ∀ c ∈ w₁, goIsSpace c = true)
    (hw₂ : ∀ c ∈ w₂, goIsSpace c = true)
    (hne : mid ≠ [])
    (hhead : ∀ c, mid.head? = some c → goIsSpace c = false)
    (hlast : ∀ c, mid.getLast? = some c → goIsSpace c = false) :
    (goTrimSpace out).toList = mid := by
  show ((out.toList.dropWhile goIsSpace).reverse.dropWhile goIsSpace).reverse
    = mid
  rw [hout, dropWhile_append_eq w₁ (mid ++ w₂) hw₁ ?_]
  · rw [List.reverse_append,
      dropWhile_append_eq w₂.reverse mid.reverse
        (fun c hc => hw₂ c (List.mem_reverse.mp hc)) ?_,
      List.reverse_reverse]
    intro c hc
    rw [List.head?_reverse] at hc
    exact hlast c hc
  · intro c hc
    rw [head?_append_left mid w₂ hne] at hc
    exact hhead c hc

/-- Evaluation of the Atoi core on a signed input with a nonempty run of
digits whose signed value is in range. -/
theorem goAtoiL_cons_sign (c : Char) (ds : List Char) (n : Int)
    (hs : c = '+' ∨ c = '-') (hne : ds ≠ [])
    (hdig : ∀ x ∈ ds, goIsDigit x = true)
    (hn : n = (if c = '-' then -1 else 1) * (digitsVal ds : Int))
    (hlo : -9223372036854775808 ≤ n) (hhi : n ≤ 9223372036854775807) :
    goAtoiL (c :: ds) = Except.ok n := by
  have hsynneg : ¬ (ds = [] ∨ ds.all goIsDigit = false) := by
    rintro (hh | hh)
    · exact hne hh
    · rw [List.all_eq_true.mpr hdig] at hh
      exact Bool.noConfusion hh
  simp only [goAtoiL]
  rw [if_pos hs, if_neg hsynneg, ← hn,
    if_neg (by push_neg; exact ⟨hlo, hhi⟩)]

/-- Inversion of the Atoi core: success means an optional single sign
followed by a nonempty run of digits whose signed value is `n`, within the
signed 64-bit range. -/
theorem goAtoiL_ok_iff (cs : List Char) (n : Int) :
    goAtoiL cs = Except.ok n ↔
      ∃ sgn ds, cs = sgn ++ ds ∧
        (sgn = [] ∨ sgn = ['+'] ∨ sgn = ['-']) ∧
        ds ≠ [] ∧ (∀ c ∈ ds, goIsDigit c = true) ∧
        n = (if sgn = ['-'] then -1 else 1) * (digitsVal ds : Int) ∧
        -9223372036854775808 ≤ n ∧ n ≤ 9223372036854775807 := by
  constructor
  · intro h
    cases cs with
    | nil => exact Except.noConfusion h
    | cons c rest =>
      simp only [goAtoiL] at h
      by_cases hs : c = '+' ∨ c = '-'
      · rw [if_pos hs] at h
        by_cases h1 : rest = [] ∨ rest.all goIsDigit = false
        · rw [if_pos h1] at h
          exact Except.noConfusion h
        · rw [if_neg h1] at h
          push_neg at h1
          have hdig : ∀ x ∈ rest, goIsDigit x = true :=
            List.all_eq_true.mp (Bool.ne_false_iff.mp h1.2)
          by_cases hc : c = '-'
          · rw [if_pos hc] at h
            by_cases h2 : (-1 : Int) * (digitsVal rest : Int) <
                -9223372036854775808 ∨
                (9223372036854775807 : Int) < -1 * (digitsVal rest : Int)
            · rw [if_pos h2] at h
              exact Except.noConfusion h
            · rw [if_neg h2] at h
              injection h with h3
              push_neg at h2
              refine ⟨['-'], rest, by rw [hc]; rfl, Or.inr (Or.inr rfl), h1.1,
                hdig, ?_, ?_, ?_⟩
              · rw [← h3, if_pos rfl]
              · rw [← h3]; exact h2.1
              · rw [← h3]; exact h2.2
          · have hcp : c = '+' := by
              rcases hs with h4 | h4
              · exact h4
              · exact absurd h4 hc
            rw [if_neg hc] at h
            by_cases h2 : (1 : Int) * (digitsVal rest : Int) <
                -9223372036854775808 ∨
                (9223372036854775807 : Int) < 1 * (digitsVal rest : Int)
            · rw [if_pos h2] at h
              exact Except.noConfusion h
            · rw [if_neg h2] at h
              injection h with h3
              push_neg at h2
              refine ⟨['+'], rest, by rw [hcp]; rfl, Or.inr (Or.inl rfl), h1.1,
                hdig, ?_, ?_, ?_⟩
              · rw [← h3, if_neg (by decide : ¬ (['+'] : List Char) = ['-'])]
              · rw [← h3]; exact h2.1
              · rw [← h3]; exact h2.2
      · rw [if_neg hs] at h
        by_cases h1 : (c :: rest) = [] ∨ (c :: rest).all goIsDigit = false
        · rw [if_pos h1] at h
          exact Except.noConfusion h
        · rw [if_neg h1] at h
          push_neg at h1
          have hdig : ∀ x ∈ c :: rest, goIsDigit x = true :=
            List.all_eq_true.mp (Bool.ne_false_iff.mp h1.2)
          have hnm : ¬ c = '-' := fun hh => hs (Or.inr hh)
          rw [if_neg hnm] at h
          by_cases h2 : (1 : Int) * (digitsVal (c :: rest) : Int) <
              -9223372036854775808 ∨
              (9223372036854775807 : Int) < 1 * (digitsVal (c :: rest) : Int)
          · rw [if_pos h2] at h
            exact Except.noConfusion h
          · rw [if_neg h2] at h
            injection h with h3
            push_neg at h2
            refine ⟨[], c :: rest, rfl, Or.inl rfl, h1.1, hdig, ?_, ?_, ?_⟩
            · rw [← h3, if_neg (by decide : ¬ ([] : List Char) = ['-'])]
            · rw [← h3]; exact h2.1
            · rw [← h3]; exact h2.2
  · rintro ⟨sgn, ds, rfl, hsgn, hne, hdig, hn, hlo, hhi⟩
    have hsynneg : ¬ (ds = [] ∨ ds.all goIsDigit = false) := by
      rintro (hh | hh)
      · exact hne hh
      · rw [List.all_eq_true.mpr hdig] at hh
        exact Bool.noConfusion hh
    rcases hsgn with rfl | rfl | rfl
    · cases ds with
      | nil => exact absurd rfl hne
      | cons d ds2 =>
        have hd := hdig d (List.mem_cons_self d ds2)
        have hdsign : ¬ (d = '+' ∨ d = '-') := by
          rintro (rfl | rfl) <;> simp [goIsDigit] at hd
        have hdm : ¬ d = '-' := fun hh => hdsign (Or.inr hh)
        have hn2 : n = (digitsVal (d :: ds2) : Int) := by
          rw [hn, if_neg (by decide : ¬ ([] : List Char) = ['-']), one_mul]
        simp only [List.nil_append, goAtoiL]
        rw [if_neg hdsign, if_neg hsynneg, if_neg hdm, one_mul, ← hn2,
          if_neg (by push_neg; exact ⟨hlo, hhi⟩)]
    · have hn2 : n = (if ('+' : Char) = '-' then -1 else 1) *
          (digitsVal ds : Int) := by
        rw [hn, if_neg (by decide : ¬ (['+'] : List Char) = ['-']),
          if_neg (by decide : ¬ ('+' : Char) = '-')]
      exact goAtoiL_cons_sign '+' ds n (Or.inl rfl) hne hdig hn2 hlo hhi
    · have hn2 : n = (if ('-' : Char) = '-' then -1 else 1) *
          (digitsVal ds : Int) := by
        rw [hn, if_pos rfl, if_pos rfl]
      exact goAtoiL_cons_sign '-' ds n (Or.inr rfl) hne hdig hn2 hlo hhi

/-- Declarative reading of the (amended) probe-output contract: the stdout
text is white space, then an optional single `+`/`-` sign, then a nonempty
run of ASCII digits denoting the count `n` within the signed 64-bit range,
then white space. -/
def ProbeOutputSpec (out : String) (n : Int) : Prop :=
  ∃ w₁ sgn ds w₂,
    out.toList = w₁ ++ sgn ++ ds ++ w₂ ∧
    (∀ c ∈ w₁, goIsSpace c = true) ∧
    (∀ c ∈ w₂, goIsSpace c = true) ∧
    (sgn = [] ∨ sgn = ['+'] ∨ sgn = ['-']) ∧
    ds ≠ [] ∧ (∀ c ∈ ds, goIsDigit c = true) ∧
    n = (if sgn = ['-'] then -1 else 1) * (digitsVal ds : Int) ∧
    -9223372036854775808 ≤ n ∧ n ≤ 9223372036854775807

/-- C5 as stated is false: the probe parser accepts stdout that is not a
single non-negative integer with only trailing white space.  On " -5\n" —
leading white space and a negative sign — it succeeds with the negative
count -5 instead of reporting a format error. -/
theorem c5_counterexample :
    countTCPConnections "client-a" (Except.ok " -5\n") = Except.ok (-5) ∧
    (-5 : Int) < 0 :=
  ⟨rfl, by decide⟩

/-- C5 amended: the probe's stdout, with leading and trailing white space
tolerated, must be a decimal integer with an optional single leading sign
within the signed 64-bit range; its value is then the probe's count.  Any
other stdout yields a format error that names the probed target and the
cause.  Such a per-target failure is never process-fatal: with discovery
and token fetch succeeding, the run always produces an aggregate. -/
theorem c5_probe_output_amended (pod : String) (out : String) :
    (∀ n, countTCPConnections pod (Except.ok out) = Except.ok n ↔
      ProbeOutputSpec out n) ∧
    ((∀ n, ¬ ProbeOutputSpec out n) →
      ∃ cause, countTCPConnections pod (Except.ok out) =
        Except.error
          ("failed to parse TCP connection count for pod " ++ pod ++ ": " ++
            cause)) ∧
    (∀ inp pods token st, getPods inp.podsCmdOut = Except.ok pods →
      getToken none inp.now inp.tokenFetch = (Except.ok token, st) →
      ∃ total, (runModel inp).aggregate = some total) := by
  have hiff : ∀ n, countTCPConnections pod (Except.ok out) = Except.ok n ↔
      ProbeOutputSpec out n := by
    intro n
    constructor
    · intro h
      have h2 : goAtoiL (goTrimSpace out).toList = Except.ok n := by
        simp only [countTCPConnections, goAtoi] at h
        cases hg : goAtoiL (goTrimSpace out).toList with
        | error e =>
          rw [hg] at h
          exact Except.noConfusion h
        | ok m =>
          rw [hg] at h
          injection h with h4
          rw [h4]
      obtain ⟨sgn, ds, heq, hsgn, hne, hdig, hn, hlo, hhi⟩ :=
        (goAtoiL_ok_iff _ n).mp h2
      obtain ⟨w₁, w₂, hout, hw1, hw2⟩ := trim_decomp out
      rw [heq] at hout
      exact ⟨w₁, sgn, ds, w₂, by rw [hout]; simp [List.append_assoc],
        hw1, hw2, hsgn, hne, hdig, hn, hlo, hhi⟩
    · rintro ⟨w₁, sgn, ds, w₂, hout, hw1, hw2, hsgn, hne, hdig, hn, hlo, hhi⟩
      have hmidne : sgn ++ ds ≠ [] := by
        intro hh
        exact hne (List.append_eq_nil.mp hh).2
      have htrim : (goTrimSpace out).toList = sgn ++ ds := by
        apply goTrimSpace_toList_of_decomp out w₁ (sgn ++ ds) w₂
          (by rw [hout]; simp [List.append_assoc]) hw1 hw2 hmidne
        · intro c hc
          rcases hsgn with rfl | rfl | rfl
          · rw [List.nil_append] at hc
            exact not_space_of_digit (hdig c (mem_of_head?_eq hc))
          · rw [head?_append_left ['+'] ds (by decide)] at hc
            injection hc with hc
            rw [← hc]
            decide
          · rw [head?_append_left ['-'] ds (by decide)] at hc
            injection hc with hc
            rw [← hc]
            decide
        · intro c hc
          rw [← List.head?_reverse, List.reverse_append] at hc
          rw [head?_append_left ds.reverse sgn.reverse
            (fun hh => hne (by simpa using hh))] at hc
          have hcm : c ∈ ds.reverse := mem_of_head?_eq hc
          exact not_space_of_digit (hdig c (List.mem_reverse.mp hcm))
      have hok : goAtoiL (goTrimSpace out).toList = Except.ok n := by
        rw [htrim]
        exact (goAtoiL_ok_iff _ n).mpr
          ⟨sgn, ds, rfl, hsgn, hne, hdig, hn, hlo, hhi⟩
      simp only [countTCPConnections, goAtoi]
      rw [hok]
  refine ⟨hiff, ?_, ?_⟩
  · intro hnone
    cases hg : goAtoi (goTrimSpace out) with
    | error e =>
      refine ⟨e, ?_⟩
      simp only [countTCPConnections]
      rw [hg]
    | ok m =>
      exfalso
      apply hnone m
      apply (hiff m).mp
      simp only [countTCPConnections]
      rw [hg]
  · intro inp pods token st h1 h2
    exact ⟨foldResults (pods.map (probeResult inp token)),
      by simp only [runModel, h1, h2]⟩

/-- C5 (amended) at a concrete probe output "12\r\n": it parses, and its
declarative description holds with count 12. -/
theorem c5_witness : ProbeOutputSpec "12\r\n" 12 :=
  ((c5_probe_output_amended "client-a" "12\r\n").1 12).mp rfl
